import Mathlib

/-!
Verification development for the MCP context-persistence layer of the
aigent-mondai repository.

The storage file `src/integrations/mcp/context/LocalStorageService.ts`
contains two class bodies named `LocalStorageService`:
* a truncation variant (oversized document content is truncated in place and
  marked), embedded below in namespace `Trunc`;
* a chunking variant (oversized document content is stored under secondary
  keys and replaced by a `__DOC_REF__`-prefixed reference token), embedded in
  namespace `Chunk`.

JavaScript strings are modelled as Lean `String`s (lengths count characters),
`JSON.stringify`/`JSON.parse` of a plain-data context round-trips exactly and
is modelled by the `StoredVal.ctxVal` constructor together with
`parseContext`, and the browser `localStorage` backend is modelled as an
association list of key/value pairs together with an abstract `Backend`
describing the effect of `setItem` (which may throw `QuotaExceededError`) and
`removeItem`.  Reads (`getItem`) never throw and are plain lookups.
-/

/-! ## Data model

The record shapes follow the `MCPContext` / document-entry data model; the
`types.ts` module itself is not among the provided sources, but every field
used by the embedded code appears in the callers.  A missing/`undefined`
`content` is identified with the empty string: every test the embedded code
performs on `content` is a JavaScript truthiness test, which coincides with
`length = 0` on strings. -/

structure DocumentEntry where
  documentId : String
  documentName : String
  documentType : String
  content : String
  deriving DecidableEq

structure MCPContext where
  conversationId : String
  documentContext : List DocumentEntry
  messageHistory : List String
  modelPreference : Option String
  metisActive : Bool
  deriving DecidableEq

/-! ## Storage backend model -/

/-- A value persisted under a `localStorage` key: either a serialized
`MCPContext` (written via `JSON.stringify`) or a raw string (the chunking
variant stores raw document content under secondary keys). -/
inductive StoredVal where
  | ctxVal (c : MCPContext)
  | strVal (s : String)
  deriving DecidableEq

abbrev Store := List (String × StoredVal)

/-- `storage.getItem(k)`: first binding wins (later `Store.insert`s shadow). -/
def Store.get : Store → String → Option StoredVal
  | [], _ => none
  | (k', v) :: st, k => if k' = k then some v else Store.get st k

/-- The state change a successful `storage.setItem(k, v)` performs. -/
def Store.insert (st : Store) (k : String) (v : StoredVal) : Store :=
  (k, v) :: st

/-- The state change `storage.removeItem(k)` performs on an honest store. -/
def Store.eraseKey (st : Store) (k : String) : Store :=
  st.filter (fun p => p.1 != k)

/-- Outcome of a `storage.setItem` call: success (with the resulting store),
a thrown `DOMException` named `QuotaExceededError`, or any other thrown
error. -/
inductive SetOutcome where
  | ok (st : Store)
  | quotaExceeded
  | otherFailure
  deriving DecidableEq

/-- The storage backend, specified for contract only (spec section 4.1): a
failable `set` and a `remove` whose effect the service code deliberately does
not trust (it re-verifies its own writes and deletes). -/
structure Backend where
  set : Store → String → StoredVal → SetOutcome
  remove : Store → String → Store

/-- The well-behaved browser store: `setItem` always succeeds and stores
exactly the given value, `removeItem` erases the key. -/
def idealBackend : Backend where
  set st k v := .ok (st.insert k v)
  remove st k := st.eraseKey k

/-- A backend whose successful writes store exactly the given key/value pair
(they may still fail with a quota error depending on the state). -/
def SetExact (B : Backend) : Prop :=
  ∀ st k v st', B.set st k v = .ok st' → st' = st.insert k v

/-- `JSON.parse` of a stored value, read back as a context.  Parsing a raw
string stored by the chunking variant under a secondary key does not yield a
context (it throws in the callers, which all catch). -/
def parseContext : StoredVal → Option MCPContext
  | .ctxVal c => some c
  | .strVal _ => none

/-- The main storage key for a conversation: the configured key prefix
concatenated with the conversation id. -/
def contextKey (kp cid : String) : String := kp ++ cid

/-- One `setItem` call issued during a save: target key, payload, and whether
the backend accepted it. -/
structure Attempt where
  key : String
  val : StoredVal
  ok : Bool
  deriving DecidableEq

/-- What `verifyStoredContext` observed (it only logs): a document-count
mismatch, or (counts equal) whether some round-tripped document's content
length differs from the pre-write one. -/
structure VerifyReport where
  countMismatch : Bool
  hasContentLoss : Bool
  deriving DecidableEq

/-- Result of the post-write verification: `threw` models the `throw` on a
missing key (and an unparseable read-back); otherwise the logged report. -/
inductive VerifyOutcome where
  | threw
  | report (r : VerifyReport)
  deriving DecidableEq

/-- Observable trace of one `saveContext` call: every `setItem` attempted in
order, and the post-write verification outcome (`none` when the executed code
contains no verification step). -/
structure SaveTrace where
  attempts : List Attempt
  verify : Option VerifyOutcome
  deriving DecidableEq

/-! ## Character-list string helpers

`substring`, `startsWith` and the guarded `replace('__DOC_REF__','')` of the
source are modelled on the character list of the string. -/

def strTake (s : String) (n : Nat) : String := ⟨s.data.take n⟩

def strDrop (s : String) (n : Nat) : String := ⟨s.data.drop n⟩

/-- JavaScript `s.startsWith(p)`. -/
def strStartsWith (s p : String) : Bool := decide (s.data.take p.data.length = p.data)

/-! ## Truncation variant (first `LocalStorageService` class body) -/

namespace Trunc

def noContentPlaceholder : String := "[No content available]"

def truncationMarker : String := "\n[CONTENT TRUNCATED DUE TO SIZE LIMITATIONS]"

/-- Default `maxDocumentSize` (1 MiB). -/
def defaultMaxDocumentSize : Nat := 1024 * 1024

/-- Constructor logic `options.maxDocumentSize || 1024 * 1024`: an absent or
zero (falsy) option falls back to the default. -/
def resolveMaxDocumentSize : Option Nat → Nat
  | some n => if n = 0 then defaultMaxDocumentSize else n
  | none => defaultMaxDocumentSize

/-- Per-document step of `prepareContextForStorage`: a document with no
content gets a placeholder; content longer than `maxDocumentSize` is
truncated to that many characters with the truncation marker appended. -/
def prepareDoc (maxS : Nat) (d : DocumentEntry) : DocumentEntry :=
  if d.content.length = 0 then { d with content := noContentPlaceholder }
  else if maxS < d.content.length then
    { d with content := strTake d.content maxS ++ truncationMarker }
  else d

def prepareContextForStorage (maxS : Nat) (c : MCPContext) : MCPContext :=
  { c with documentContext := c.documentContext.map (prepareDoc maxS) }

/-- `verifyStoredContext`: read the key back; throw if absent (or the read
back value does not parse); otherwise compare the saved context against the
just-written one — document counts first, then (counts equal) per saved
document the content length against the original document found by id. -/
def verifyStoredContext (st : Store) (key : String) (original : MCPContext) :
    VerifyOutcome :=
  match st.get key with
  | none => .threw
  | some v =>
    match parseContext v with
    | none => .threw
    | some saved =>
      if original.documentContext.length ≠ saved.documentContext.length then
        .report ⟨true, false⟩
      else
        .report ⟨false,
          saved.documentContext.any fun d =>
            match original.documentContext.find?
                (fun od => od.documentId == d.documentId) with
            | some od => od.content.length != d.content.length
            | none => false⟩

/-- Step (a) of the quota ladder: every document's content is replaced by a
short placeholder naming the document; metadata is retained. -/
def placeholderContent (docName : String) : String :=
  "[Content removed due to storage limitations. Document: " ++ docName ++ "]"

def minimalDegrade (c : MCPContext) : MCPContext :=
  { c with documentContext :=
      c.documentContext.map fun d =>
        { d with content := placeholderContent d.documentName } }

/-- Step (b) of the quota ladder: the document list is dropped entirely. -/
def bareDegrade (c : MCPContext) : MCPContext :=
  { c with documentContext := [] }

/-- `handleStorageError`: only a `QuotaExceededError` triggers the two-step
degradation ladder; each step re-writes the main key, a step is attempted
only after the previous write failed, and the first success ends the ladder.
Returns the resulting store and the `setItem` attempts made. -/
def handleStorageError (B : Backend) (kp cid : String) (context : MCPContext)
    (isQuota : Bool) (st : Store) : Store × List Attempt :=
  if isQuota then
    let key := contextKey kp cid
    let minimal := minimalDegrade context
    match B.set st key (.ctxVal minimal) with
    | .ok st1 => (st1, [⟨key, .ctxVal minimal, true⟩])
    | _ =>
      let bare := bareDegrade context
      match B.set st key (.ctxVal bare) with
      | .ok st2 =>
        (st2, [⟨key, .ctxVal minimal, false⟩, ⟨key, .ctxVal bare, true⟩])
      | _ =>
        (st, [⟨key, .ctxVal minimal, false⟩, ⟨key, .ctxVal bare, false⟩])
  else (st, [])

/-- `saveContext` (truncation variant).  A context with documents is prepared
(placeholder/truncation), written, and on success immediately verified by
reading the key back; a `throw` out of the verification is caught by the
surrounding `catch`, whose `handleStorageError` ignores non-quota errors.  A
failed write is routed to `handleStorageError`.  The call itself never throws
and reports nothing to the caller. -/
def saveContext (B : Backend) (kp : String) (maxS : Nat) (cid : String)
    (context : MCPContext) (st : Store) : Store × SaveTrace :=
  let key := contextKey kp cid
  if context.documentContext = [] then
    match B.set st key (.ctxVal context) with
    | .ok st1 => (st1, ⟨[⟨key, .ctxVal context, true⟩], none⟩)
    | .quotaExceeded =>
      let r := handleStorageError B kp cid context true st
      (r.1, ⟨⟨key, .ctxVal context, false⟩ :: r.2, none⟩)
    | .otherFailure =>
      let r := handleStorageError B kp cid context false st
      (r.1, ⟨⟨key, .ctxVal context, false⟩ :: r.2, none⟩)
  else
    let prepared := prepareContextForStorage maxS context
    match B.set st key (.ctxVal prepared) with
    | .ok st1 =>
      match verifyStoredContext st1 key prepared with
      | .threw =>
        let r := handleStorageError B kp cid context false st1
        (r.1, ⟨⟨key, .ctxVal prepared, true⟩ :: r.2, some .threw⟩)
      | .report rep =>
        (st1, ⟨[⟨key, .ctxVal prepared, true⟩], some (.report rep)⟩)
    | .quotaExceeded =>
      let r := handleStorageError B kp cid context true st
      (r.1, ⟨⟨key, .ctxVal prepared, false⟩ :: r.2, none⟩)
    | .otherFailure =>
      let r := handleStorageError B kp cid context false st
      (r.1, ⟨⟨key, .ctxVal prepared, false⟩ :: r.2, none⟩)

/-- `loadContext` (truncation variant): read and parse; `null` when the key
is absent or parsing throws.  The body otherwise only logs diagnostics and
returns the parsed context unchanged. -/
def loadContext (kp cid : String) (st : Store) : Option MCPContext :=
  match st.get (contextKey kp cid) with
  | none => none
  | some v => parseContext v

/-- `removeContext` (truncation variant): issue the delete, then read the
same key back; the returned boolean is the read-after-delete confirmation
that the key is absent. -/
def removeContext (B : Backend) (kp cid : String) (st : Store) :
    Store × Bool :=
  let key := contextKey kp cid
  let st' := B.remove st key
  (st', (st'.get key).isNone)

end Trunc

/-! ## Chunking variant (second `LocalStorageService` class body) -/

namespace Chunk

/-- The in-band reference token marker written in place of externalized
document content. -/
def refMarker : String := "__DOC_REF__"

/-- Secondary key for a document's externalized content. -/
def docKey (kp cid docId : String) : String :=
  kp ++ cid ++ "_doc_" ++ docId

/-- Key of the degraded payload written by the quota fallback. -/
def minimalKey (kp cid : String) : String := kp ++ cid ++ "_minimal"

/-- Guard `doc.content && doc.content.length > this.maxDocumentSize / 2`:
the document content is externalized when it is non-empty and longer than
half the configured ceiling (`2 * length > maxS` avoids the fractional
JavaScript division). -/
def bigDoc (maxS : Nat) (d : DocumentEntry) : Prop :=
  0 < d.content.length ∧ maxS < 2 * d.content.length

instance (maxS : Nat) (d : DocumentEntry) : Decidable (bigDoc maxS d) :=
  inferInstanceAs (Decidable (_ ∧ _))

/-- The pure per-document transformation the save loop applies to the context
copy: a big document's content is replaced by the reference token. -/
def chunkPrepare (kp cid : String) (maxS : Nat) (d : DocumentEntry) :
    DocumentEntry :=
  if bigDoc maxS d then
    { d with content := refMarker ++ docKey kp cid d.documentId }
  else d

/-- Result of the document-externalizing loop inside `saveContext`: either
all documents processed (resulting store, attempts, transformed document
list), or the first failing `setItem` aborted the loop to the `catch`
(resulting store, attempts, and whether the error was the quota error). -/
inductive LoopResult where
  | done (st : Store) (atts : List Attempt) (docs : List DocumentEntry)
  | failed (st : Store) (atts : List Attempt) (isQuota : Bool)

def LoopResult.store : LoopResult → Store
  | .done st _ _ => st
  | .failed st _ _ => st

def LoopResult.atts : LoopResult → List Attempt
  | .done _ atts _ => atts
  | .failed _ atts _ => atts

/-- The `for` loop of the chunking `saveContext`: each big document's content
is written under its secondary key and replaced in the copy by the reference
token; a thrown `setItem` aborts the loop. -/
def processDocs (B : Backend) (kp cid : String) (maxS : Nat) :
    List DocumentEntry → Store → LoopResult
  | [], st => .done st [] []
  | d :: ds, st =>
    if bigDoc maxS d then
      let k := docKey kp cid d.documentId
      match B.set st k (.strVal d.content) with
      | .ok st1 =>
        match processDocs B kp cid maxS ds st1 with
        | .done st2 atts docs =>
          .done st2 (⟨k, .strVal d.content, true⟩ :: atts)
            ({ d with content := refMarker ++ k } :: docs)
        | .failed st2 atts q =>
          .failed st2 (⟨k, .strVal d.content, true⟩ :: atts) q
      | .quotaExceeded => .failed st [⟨k, .strVal d.content, false⟩] true
      | .otherFailure => .failed st [⟨k, .strVal d.content, false⟩] false
    else
      match processDocs B kp cid maxS ds st with
      | .done st2 atts docs => .done st2 atts (d :: docs)
      | .failed st2 atts q => .failed st2 atts q

/-- Placeholder content of the quota fallback payload:
`Content too large for storage (N bytes)`. -/
def chunkPlaceholder (d : DocumentEntry) : String :=
  "Content too large for storage (" ++ toString d.content.length ++ " bytes)"

/-- The degraded payload of the quota fallback: document metadata is kept,
content replaced by the placeholder. -/
def minimalChunkContext (c : MCPContext) : MCPContext :=
  { c with documentContext :=
      c.documentContext.map fun d => { d with content := chunkPlaceholder d } }

/-- The `QuotaExceededError` fallback of the chunking `saveContext`: one
single degraded write, under the separate `_minimal` key. -/
def quotaFallback (B : Backend) (kp cid : String) (context : MCPContext)
    (st : Store) : Store × List Attempt :=
  let mk := minimalKey kp cid
  let minimal := minimalChunkContext context
  match B.set st mk (.ctxVal minimal) with
  | .ok st1 => (st1, [⟨mk, .ctxVal minimal, true⟩])
  | _ => (st, [⟨mk, .ctxVal minimal, false⟩])

/-- Core of the chunking `saveContext`: returns the resulting store and the
`setItem` attempts made.  A quota error thrown anywhere inside the `try`
(a secondary-key write or the main write) routes the ORIGINAL context to the
fallback; any other error ends the call. -/
def saveCore (B : Backend) (kp : String) (maxS : Nat) (cid : String)
    (context : MCPContext) (st : Store) : Store × List Attempt :=
  let key := contextKey kp cid
  if context.documentContext = [] then
    match B.set st key (.ctxVal context) with
    | .ok st1 => (st1, [⟨key, .ctxVal context, true⟩])
    | .quotaExceeded =>
      let r := quotaFallback B kp cid context st
      (r.1, ⟨key, .ctxVal context, false⟩ :: r.2)
    | .otherFailure => (st, [⟨key, .ctxVal context, false⟩])
  else
    match processDocs B kp cid maxS context.documentContext st with
    | .done st1 atts docs =>
      let copy := { context with documentContext := docs }
      match B.set st1 key (.ctxVal copy) with
      | .ok st2 => (st2, atts ++ [⟨key, .ctxVal copy, true⟩])
      | .quotaExceeded =>
        let r := quotaFallback B kp cid context st1
        (r.1, atts ++ ⟨key, .ctxVal copy, false⟩ :: r.2)
      | .otherFailure => (st1, atts ++ [⟨key, .ctxVal copy, false⟩])
    | .failed st1 atts true =>
      let r := quotaFallback B kp cid context st1
      (r.1, atts ++ r.2)
    | .failed st1 atts false => (st1, atts)

/-- `saveContext` (chunking variant).  Unlike the truncation variant, its
body contains no read-back verification step, so the trace's `verify`
component is always `none`. -/
def saveContext (B : Backend) (kp : String) (maxS : Nat) (cid : String)
    (context : MCPContext) (st : Store) : Store × SaveTrace :=
  let r := saveCore B kp maxS cid context st
  (r.1, ⟨r.2, none⟩)

/-- The guarded `replace('__DOC_REF__','')`: only called after
`startsWith('__DOC_REF__')`, where the first occurrence is the leading one,
so it strips exactly the marker. -/
def stripRef (s : String) : String := strDrop s refMarker.length

/-- Per-document step of `loadContext`: a content that starts with the
reference marker is resolved through the store; a missing secondary key
yields the lost-reference placeholder.  Secondary keys only ever hold raw
strings; a serialized context under a document key does not occur in any
execution considered here and is mapped to the lost-reference branch. -/
def resolveDoc (st : Store) (d : DocumentEntry) : DocumentEntry :=
  if strStartsWith d.content refMarker then
    let k := stripRef d.content
    match st.get k with
    | some (.strVal s) => { d with content := s }
    | _ => { d with content := "Content reference lost: " ++ k }
  else d

/-- `loadContext` (chunking variant): reads only the main key
`prefix ++ conversationId`; on success, document contents holding reference
tokens are resolved through the secondary keys. -/
def loadContext (kp cid : String) (st : Store) : Option MCPContext :=
  match st.get (contextKey kp cid) with
  | none => none
  | some v =>
    match parseContext v with
    | none => none
    | some c =>
      some { c with documentContext := c.documentContext.map (resolveDoc st) }

/-- `removeContext` (chunking variant): removes referenced secondary keys,
the main key and the `_minimal` key, and returns `true` whenever no error was
thrown — there is no read-after-delete confirmation.  An unparseable stored
value makes `JSON.parse` throw, which the `catch` turns into `false`. -/
def removeContext (B : Backend) (kp cid : String) (st : Store) :
    Store × Bool :=
  let key := contextKey kp cid
  match st.get key with
  | some v =>
    match parseContext v with
    | none => (st, false)
    | some c =>
      let st1 := c.documentContext.foldl
        (fun s d =>
          if strStartsWith d.content refMarker then
            B.remove s (stripRef d.content)
          else s) st
      let st2 := B.remove st1 key
      let st3 := B.remove st2 (minimalKey kp cid)
      (st3, true)
  | none =>
    let st2 := B.remove st key
    let st3 := B.remove st2 (minimalKey kp cid)
    (st3, true)

end Chunk

/-! ## Change notification (`src/utils/fileWatcher.ts`) -/

/-- The `detail` payload of a dispatched `CustomEvent`.  The fields a payload
may carry in this codebase are a timestamp and, for the UI-hook dispatches,
a document id and an action. -/
structure EventDetail where
  timestamp : Nat
  documentId : Option String
  action : Option String
  deriving DecidableEq

/-- One `window.dispatchEvent`ed custom event: its name and detail. -/
structure DomEvent where
  name : String
  detail : EventDetail
  deriving DecidableEq

/-- `FileWatcher.notifyDocumentContextChange()`: dispatches a
`documentContextUpdated` event whose detail is `{ timestamp: Date.now() }` —
nothing else.  `Date.now()` is passed in as `now`. -/
def notifyDocumentContextChange (now : Nat) : DomEvent :=
  ⟨"documentContextUpdated", ⟨now, none, none⟩⟩

/-! ## Context service (spec-modelled) and `MCPContextClient` -/

/-- State owned by a `ContextService` instance together with the persisted
store it saves into. -/
structure ContextServiceState where
  current : MCPContext
  store : Store
  deriving DecidableEq

/-- How `ContextService.addDocumentToContext` signals its outcome. -/
inductive AddOutcome where
  | emptyContent
  | duplicateId
  | added
  deriving DecidableEq

namespace ContextService

/-- Modelled from the spec: the `ContextService` class (imported by the
clients from `src/integrations/mcp/context`) is not among the provided
sources.  Spec section 4.3: `addDocumentToContext` fails with `EmptyContent`
if the content is empty; otherwise it appends a DocumentContextEntry,
rejecting duplicates by `documentId` before any mutation, persists the whole
context via the storage service, and updates the in-memory state.  A
rejection is signalled to the caller (thrown); persistence uses the
truncation-variant storage service over the well-behaved store. -/
def addDocumentToContext (kp : String) (maxS : Nat) (s : ContextServiceState)
    (docId docName docType content : String) :
    ContextServiceState × AddOutcome :=
  if content.length = 0 then (s, .emptyContent)
  else if s.current.documentContext.any (fun d => d.documentId == docId) then
    (s, .duplicateId)
  else
    let ctx' := { s.current with documentContext :=
        s.current.documentContext ++ [⟨docId, docName, docType, content⟩] }
    let st' := (Trunc.saveContext idealBackend kp maxS ctx'.conversationId
        ctx' s.store).1
    (⟨ctx', st'⟩, .added)

/-- Modelled from the spec (section 4.3): `removeDocumentFromContext` removes
by id if present, persists, and returns whether anything was removed. -/
def removeDocumentFromContext (kp : String) (maxS : Nat)
    (s : ContextServiceState) (docId : String) : ContextServiceState × Bool :=
  if s.current.documentContext.any (fun d => d.documentId == docId) then
    let ctx' := { s.current with documentContext :=
        s.current.documentContext.filter (fun d => d.documentId != docId) }
    let st' := (Trunc.saveContext idealBackend kp maxS ctx'.conversationId
        ctx' s.store).1
    (⟨ctx', st'⟩, true)
  else (s, false)

end ContextService

/-- The error surfaced by `MCPContextClient.addDocumentToContext` (it logs
and rethrows). -/
inductive ClientError where
  | emptyContent
  | addRejected
  deriving DecidableEq

/-- Observable result of a client call: the resulting service/storage state,
the events dispatched, and the rethrown error, if any. -/
structure ClientAddResult where
  state : ContextServiceState
  events : List DomEvent
  thrown : Option ClientError
  deriving DecidableEq

structure ClientRemoveResult where
  state : ContextServiceState
  events : List DomEvent
  removed : Bool
  deriving DecidableEq

namespace MCPContextClient

/-- `MCPContextClient.addDocumentToContext`
(`src/integrations/mcp/clients/MCPContextClient.ts`, lines 52-77; the
`MCPClient` in the unnamed factory module has the same body): empty content
throws before the context service is invoked and before any notification;
otherwise the service is called and, on success, exactly one
`documentContextUpdated` notification is dispatched.  Errors are caught,
logged and rethrown; no event is dispatched on an error path. -/
def addDocumentToContext (kp : String) (maxS : Nat) (s : ContextServiceState)
    (docId docName docType content : String) (now : Nat) : ClientAddResult :=
  if content.length = 0 then ⟨s, [], some .emptyContent⟩
  else
    match ContextService.addDocumentToContext kp maxS s docId docName docType
        content with
    | (s', .added) => ⟨s', [notifyDocumentContextChange now], none⟩
    | (s', _) => ⟨s', [], some .addRejected⟩

/-- `MCPContextClient.removeDocumentFromContext` (lines 82-101): delegates,
and dispatches a single `documentContextUpdated` notification only when a
document was actually removed; returns whether one was. -/
def removeDocumentFromContext (kp : String) (maxS : Nat)
    (s : ContextServiceState) (docId : String) (now : Nat) :
    ClientRemoveResult :=
  match ContextService.removeDocumentFromContext kp maxS s docId with
  | (s', true) => ⟨s', [notifyDocumentContextChange now], true⟩
  | (s', false) => ⟨s', [], false⟩

end MCPContextClient

/-! ## `getMCPClient` singleton factory (unnamed factory modules) -/

/-- `MCPClientOptions` as used by the client constructors. -/
structure MCPClientOptions where
  serverUrl : Option String
  authToken : Option String
  metisActive : Option Bool
  deriving DecidableEq

/-- The observable state of a constructed client: resolved server URL, auth
token, and the metis flag held by its context service. -/
structure MCPClientState where
  serverUrl : String
  authToken : Option String
  metisActive : Bool
  deriving DecidableEq

def defaultServerUrl : String := "https://mcp-gdrive-server.example.com"

/-- The `MCPClient` constructor:
`options.serverUrl || default`, `options.authToken || null`,
`new ContextService(options.metisActive || false)` (JavaScript `||` treats
the empty string as falsy). -/
def mkMCPClient (o : MCPClientOptions) : MCPClientState where
  serverUrl :=
    match o.serverUrl with
    | some s => if s.length = 0 then defaultServerUrl else s
    | none => defaultServerUrl
  authToken :=
    match o.authToken with
    | some t => if t.length = 0 then none else some t
    | none => none
  metisActive := o.metisActive.getD false

/-- `setMetisActive` mutates the flag on the existing instance. -/
def MCPClientState.setMetisActive (c : MCPClientState) (a : Bool) :
    MCPClientState :=
  { c with metisActive := a }

/-- `getMCPClient` (identical in both factory modules): the module-level
`mcpClientInstance` is the input/output state; a first call constructs the
instance, a later call returns the existing one, applying only a defined
`options.metisActive` to it via `setMetisActive`. -/
def getMCPClient (inst : Option MCPClientState) (o : MCPClientOptions) :
    MCPClientState × Option MCPClientState :=
  match inst with
  | none =>
    let c := mkMCPClient o
    (c, some c)
  | some c =>
    match o.metisActive with
    | some a =>
      let c' := c.setMetisActive a
      (c', some c')
    | none => (c, some c)

/-! ## Auxiliary description of the chunking save loop's store effect -/

/-- The store after the externalizing loop: each big document's content
inserted under its secondary key, in document order. -/
def writeBigDocs (kp cid : String) (maxS : Nat) (docs : List DocumentEntry)
    (st : Store) : Store :=
  docs.foldl
    (fun s d =>
      if Chunk.bigDoc maxS d then
        s.insert (Chunk.docKey kp cid d.documentId) (.strVal d.content)
      else s) st

/-- The context copy the chunking `saveContext` writes under the main key:
every big document's content replaced by its reference token. -/
def chunkCopy (kp cid : String) (maxS : Nat) (ctx : MCPContext) : MCPContext :=
  { ctx with documentContext :=
      ctx.documentContext.map (Chunk.chunkPrepare kp cid maxS) }

/-! ## Concrete instances used by witnesses and counterexamples -/

/-- A backend on which every write fails with `QuotaExceededError`. -/
def failB : Backend where
  set _ _ _ := .quotaExceeded
  remove st k := st.eraseKey k

/-- A context with no documents, stored by a backend that corrupts writes. -/
def corruptCtx : MCPContext :=
  { conversationId := "c", documentContext := [], messageHistory := [],
    modelPreference := none, metisActive := false }

/-- A backend whose writes "succeed" but persist a corrupted value (a context
with no documents) — the silent-content-loss hazard the verification
read-back exists for. -/
def corruptB : Backend where
  set st k _ := .ok (st.insert k (.ctxVal corruptCtx))
  remove st k := st.eraseKey k

/-- A backend whose `removeItem` silently fails to remove (writes are
exact). -/
def stubbornB : Backend where
  set st k v := .ok (st.insert k v)
  remove st _ := st

/-- A backend with room only for the degraded `_minimal` payload of
conversation `"c"` under prefix `"p_"`: every other write is rejected with
the quota error. -/
def capB : Backend where
  set st k v :=
    if k = Chunk.minimalKey "p_" "c" then .ok (st.insert k v)
    else .quotaExceeded
  remove st k := st.eraseKey k

/-- A backend with room only for document-free payloads: a write of a
serialized context carrying documents (or of raw content) is rejected with
the quota error, so that the full degradation ladder runs. -/
def ladderB : Backend where
  set st k v :=
    match v with
    | .ctxVal c => if c.documentContext.isEmpty then .ok (st.insert k v)
                   else .quotaExceeded
    | .strVal _ => .quotaExceeded
  remove st k := st.eraseKey k

/-- The witness document: five characters of content. -/
def wDoc : DocumentEntry := ⟨"d1", "Doc One", "txt", "hello"⟩

/-- A one-document context (small content). -/
def ctx1 : MCPContext :=
  { conversationId := "c",
    documentContext := [⟨"d1", "Doc One", "txt", "hi"⟩],
    messageHistory := [], modelPreference := none, metisActive := false }

/-- A context whose single document's content spoofs the chunking variant's
in-band reference marker while being non-empty and far below the ceiling. -/
def spoofCtx : MCPContext :=
  { conversationId := "c",
    documentContext := [⟨"d1", "Doc One", "txt", "__DOC_REF__x"⟩],
    messageHistory := [], modelPreference := none, metisActive := false }

/-- Round-trip witness context for the truncation variant. -/
def wCtx : MCPContext :=
  { conversationId := "c",
    documentContext := [wDoc],
    messageHistory := ["hi"], modelPreference := some "m", metisActive := true }

/-- Round-trip witness context for the chunking variant: with ceiling 5 its
single document (content length 5 > 5/2) is externalized under a secondary
key and restored on load. -/
def wCtx2 : MCPContext :=
  { conversationId := "c",
    documentContext := [⟨"d1", "Doc One", "txt", "hello"⟩,
      ⟨"d2", "Doc Two", "txt", "yo"⟩],
    messageHistory := [], modelPreference := none, metisActive := false }

/-- A client state holding an empty context over an empty store. -/
def emptyCtxState : ContextServiceState :=
  ⟨{ conversationId := "c", documentContext := [], messageHistory := [],
     modelPreference := none, metisActive := false }, []⟩

/-- A client state whose context already holds document id `"d1"`. -/
def dupCtxState : ContextServiceState :=
  ⟨ctx1, []⟩

/-! # Helper lemmas -/

theorem Store.get_insert (st : Store) (k : String) (v : StoredVal)
    (k' : String) :
    (st.insert k v).get k' = if k = k' then some v else st.get k' := by
  simp [Store.insert, Store.get]

theorem str_append_assoc (a b c : String) : a ++ b ++ c = a ++ (b ++ c) :=
  String.ext (List.append_assoc a.data b.data c.data)

theorem str_append_ne_left (a b : String) (hb : b.data ≠ []) : a ++ b ≠ a := by
  intro h
  have hd : a.data ++ b.data = a.data ++ ([] : List Char) := by
    simpa using congrArg String.data h
  exact hb (List.append_cancel_left hd)

theorem minimalKey_ne_contextKey (kp cid : String) :
    Chunk.minimalKey kp cid ≠ contextKey kp cid :=
  str_append_ne_left (kp ++ cid) "_minimal" (by decide)

theorem docKey_ne_contextKey (kp cid i : String) :
    Chunk.docKey kp cid i ≠ contextKey kp cid := by
  have h : Chunk.docKey kp cid i = (kp ++ cid) ++ ("_doc_" ++ i) :=
    str_append_assoc (kp ++ cid) "_doc_" i
  rw [h]
  refine str_append_ne_left (kp ++ cid) ("_doc_" ++ i) ?_
  intro hnil
  have : ("_doc_").data = [] ∧ i.data = [] := List.append_eq_nil.mp hnil
  exact absurd this.1 (by decide)

theorem docKey_ne_minimalKey (kp cid i : String) :
    Chunk.docKey kp cid i ≠ Chunk.minimalKey kp cid := by
  intro h
  have hd : (kp ++ cid).data ++ (("_doc_").data ++ i.data) =
      (kp ++ cid).data ++ ("_minimal").data := by
    have h' : (kp ++ cid) ++ ("_doc_" ++ i) = (kp ++ cid) ++ "_minimal" := by
      rw [← str_append_assoc]; exact h
    simpa using congrArg String.data h'
  have h2 : ("_doc_").data ++ i.data = ("_minimal").data :=
    List.append_cancel_left hd
  have h3 : (("_doc_").data ++ i.data)[1]? = (("_minimal").data)[1]? := by
    rw [h2]
  rw [List.getElem?_append_left (by decide)] at h3
  exact absurd h3 (by decide)

theorem docKey_inj (kp cid : String) {i j : String}
    (h : Chunk.docKey kp cid i = Chunk.docKey kp cid j) : i = j := by
  have hd : (kp ++ cid ++ "_doc_").data ++ i.data =
      (kp ++ cid ++ "_doc_").data ++ j.data := congrArg String.data h
  exact String.ext (List.append_cancel_left hd)

theorem strStartsWith_append (a b : String) : strStartsWith (a ++ b) a = true := by
  simp [strStartsWith]

theorem stripRef_append (k : String) :
    Chunk.stripRef (Chunk.refMarker ++ k) = k := by
  apply String.ext
  show ((Chunk.refMarker).data ++ k.data).drop ((Chunk.refMarker).length) = k.data
  exact List.drop_left (Chunk.refMarker).data k.data

/-! # Claim theorems -/

/-- Claim C5 (confirmed): for any configured per-document ceiling (the
constructor's `options.maxDocumentSize || 1 MiB` resolution), a document
whose content length is exactly the ceiling is persisted by
`prepareContextForStorage` unmodified, and one whose content exceeds the
ceiling is persisted as the length-`M` prefix of its content with the
explicit truncation marker appended. -/
theorem c5_theorem (optMax : Option Nat) (d : DocumentEntry) :
    (d.content.length = Trunc.resolveMaxDocumentSize optMax →
      Trunc.prepareDoc (Trunc.resolveMaxDocumentSize optMax) d = d) ∧
    (Trunc.resolveMaxDocumentSize optMax < d.content.length →
      (Trunc.prepareDoc (Trunc.resolveMaxDocumentSize optMax) d).content =
        strTake d.content (Trunc.resolveMaxDocumentSize optMax) ++
          Trunc.truncationMarker ∧
      (strTake d.content (Trunc.resolveMaxDocumentSize optMax)).length =
        Trunc.resolveMaxDocumentSize optMax) := by
  have hM : 0 < Trunc.resolveMaxDocumentSize optMax := by
    rcases optMax with _ | n
    · decide
    · by_cases hn : n = 0 <;>
        simp [Trunc.resolveMaxDocumentSize, Trunc.defaultMaxDocumentSize, hn,
          Nat.pos_of_ne_zero]
  have hM0 : Trunc.resolveMaxDocumentSize optMax ≠ 0 := by omega
  constructor
  · intro h
    simp [Trunc.prepareDoc, h, hM0]
  · intro h
    have h0 : d.content.length ≠ 0 := by omega
    refine ⟨by simp [Trunc.prepareDoc, h0, h], ?_⟩
    show (d.content.data.take (Trunc.resolveMaxDocumentSize optMax)).length = _
    rw [List.length_take]
    exact Nat.min_eq_left (Nat.le_of_lt h)

/-- Witness for C5 at ceiling 5 (content `"hello"` exactly at the ceiling is
unmodified) and ceiling 4 (one character over: truncated and marked). -/
theorem c5_witness :
    Trunc.prepareDoc (Trunc.resolveMaxDocumentSize (some 5)) wDoc = wDoc ∧
    ((Trunc.prepareDoc (Trunc.resolveMaxDocumentSize (some 4)) wDoc).content =
      strTake wDoc.content (Trunc.resolveMaxDocumentSize (some 4)) ++
        Trunc.truncationMarker ∧
     (strTake wDoc.content (Trunc.resolveMaxDocumentSize (some 4))).length =
       Trunc.resolveMaxDocumentSize (some 4)) :=
  ⟨(c5_theorem (some 5) wDoc).1 (by decide),
   (c5_theorem (some 4) wDoc).2 (by decide)⟩

/-- Claim C8 (confirmed): the client's `addDocumentToContext` with empty
content throws the empty-content error synchronously, before the context
service is invoked, before any persistence write and before any
notification: the state is returned untouched and no event is dispatched. -/
theorem c8_theorem (kp : String) (maxS : Nat) (s : ContextServiceState)
    (docId docName docType content : String) (now : Nat)
    (h : content.length = 0) :
    MCPContextClient.addDocumentToContext kp maxS s docId docName docType
      content now = ⟨s, [], some .emptyContent⟩ := by
  simp [MCPContextClient.addDocumentToContext, h]

/-- Witness for C8: adding a document with content `""`. -/
theorem c8_witness :
    MCPContextClient.addDocumentToContext "p-" 5 emptyCtxState "d9" "Doc"
      "txt" "" 3 = ⟨emptyCtxState, [], some .emptyContent⟩ :=
  c8_theorem "p-" 5 emptyCtxState "d9" "Doc" "txt" "" 3 (by decide)

/-- Claim C10 (confirmed): `getMCPClient` is a memoizing singleton: with no
existing instance it constructs one from the options and stores it; with an
existing instance it returns exactly that instance, ignoring all options
except a defined `metisActive`, which is applied to the existing instance
via `setMetisActive`. -/
theorem c10_theorem :
    (∀ o, getMCPClient none o = (mkMCPClient o, some (mkMCPClient o))) ∧
    (∀ c o,
      getMCPClient (some c) o =
        (match o.metisActive with
         | some a => (c.setMetisActive a, some (c.setMetisActive a))
         | none => (c, some c))) := by
  constructor
  · intro o; rfl
  · intro c o
    rcases o with ⟨u, t, m⟩
    rcases m with _ | a <;> rfl

/-- Claim C3 (confirmed, spec-modelled context service): adding a document
whose id is already present in `documentContext` is rejected before any
mutation — the in-memory context and the persisted store are returned
byte-for-byte unchanged and an outcome other than `added` is signalled — and
consequently documents unique by id stay unique by id across any add. -/
theorem c3_theorem :
    (∀ (kp : String) (maxS : Nat) (s : ContextServiceState)
        (docId docName docType content : String),
      docId ∈ s.current.documentContext.map (·.documentId) →
      (ContextService.addDocumentToContext kp maxS s docId docName docType
          content).1 = s ∧
      (ContextService.addDocumentToContext kp maxS s docId docName docType
          content).2 ≠ .added) ∧
    (∀ (kp : String) (maxS : Nat) (s : ContextServiceState)
        (docId docName docType content : String),
      (s.current.documentContext.map (·.documentId)).Nodup →
      ((ContextService.addDocumentToContext kp maxS s docId docName docType
          content).1.current.documentContext.map (·.documentId)).Nodup) := by
  constructor
  · intro kp maxS s docId docName docType content hmem
    have hany : (s.current.documentContext.any
        (fun d => d.documentId == docId)) = true := by
      rw [List.any_eq_true]
      obtain ⟨d, hd, hid⟩ := List.mem_map.mp hmem
      exact ⟨d, hd, by simp [hid]⟩
    by_cases hc : content.length = 0 <;>
      simp [ContextService.addDocumentToContext, hc, hany]
  · intro kp maxS s docId docName docType content hnd
    by_cases hc : content.length = 0
    · simpa [ContextService.addDocumentToContext, hc] using hnd
    rcases hany : (s.current.documentContext.any
        (fun d => d.documentId == docId)) with _ | _
    · have hnotmem : docId ∉ s.current.documentContext.map (·.documentId) := by
        intro hmem
        obtain ⟨d, hd, hid⟩ := List.mem_map.mp hmem
        have : (s.current.documentContext.any
            (fun d => d.documentId == docId)) = true :=
          List.any_eq_true.mpr ⟨d, hd, by simp only [beq_iff_eq]; exact hid⟩
        rw [hany] at this
        cases this
      simp only [ContextService.addDocumentToContext, hc, hany, if_false,
        Bool.false_eq_true, List.map_append, List.map_cons, List.map_nil]
      rw [List.nodup_append]
      refine ⟨hnd, List.nodup_singleton _, ?_⟩
      intro a ha hb
      rcases List.mem_singleton.mp hb with rfl
      exact hnotmem ha
    · simpa [ContextService.addDocumentToContext, hc, hany] using hnd

/-- Witness for C3: adding id `"d1"` to a state already holding `"d1"`. -/
theorem c3_witness :
    ((ContextService.addDocumentToContext "p-" 5 dupCtxState "d1" "N" "t"
        "x").1 = dupCtxState ∧
     (ContextService.addDocumentToContext "p-" 5 dupCtxState "d1" "N" "t"
        "x").2 ≠ .added) ∧
    ((ContextService.addDocumentToContext "p-" 5 dupCtxState "d1" "N" "t"
        "x").1.current.documentContext.map (·.documentId)).Nodup :=
  ⟨c3_theorem.1 "p-" 5 dupCtxState "d1" "N" "t" "x" (by decide),
   c3_theorem.2 "p-" 5 dupCtxState "d1" "N" "t" "x" (by decide)⟩

/-- Claim C4 (counterexample): a successful add through the client (no error
thrown) dispatches exactly one `documentContextUpdated` event, but its
payload carries only a timestamp — it contains neither a `documentId` nor an
`action` field, contrary to the claim. -/
theorem c4_counterexample :
    (MCPContextClient.addDocumentToContext "p-" 100 emptyCtxState "d1" "Doc"
        "txt" "hello" 42).thrown = none ∧
    (MCPContextClient.addDocumentToContext "p-" 100 emptyCtxState "d1" "Doc"
        "txt" "hello" 42).events =
      [⟨"documentContextUpdated", ⟨42, none, none⟩⟩] ∧
    (∀ e ∈ (MCPContextClient.addDocumentToContext "p-" 100 emptyCtxState "d1"
        "Doc" "txt" "hello" 42).events,
      e.detail.documentId = none ∧ e.detail.action = none) := by
  decide

/-- Claim C4 (corrected): every successful add and every successful remove
through the client dispatches exactly one `documentContextUpdated` event (and
error/no-op paths dispatch none), but the event's payload carries only the
timestamp — no `documentId` and no `action`. -/
theorem c4_amended :
    (∀ (kp : String) (maxS : Nat) (s : ContextServiceState)
        (docId docName docType content : String) (now : Nat),
      ((MCPContextClient.addDocumentToContext kp maxS s docId docName docType
          content now).thrown = none →
        (MCPContextClient.addDocumentToContext kp maxS s docId docName
            docType content now).events =
          [notifyDocumentContextChange now]) ∧
      ((MCPContextClient.addDocumentToContext kp maxS s docId docName docType
          content now).thrown ≠ none →
        (MCPContextClient.addDocumentToContext kp maxS s docId docName
            docType content now).events = [])) ∧
    (∀ (kp : String) (maxS : Nat) (s : ContextServiceState) (docId : String)
        (now : Nat),
      ((MCPContextClient.removeDocumentFromContext kp maxS s docId
          now).removed = true →
        (MCPContextClient.removeDocumentFromContext kp maxS s docId
            now).events = [notifyDocumentContextChange now]) ∧
      ((MCPContextClient.removeDocumentFromContext kp maxS s docId
          now).removed = false →
        (MCPContextClient.removeDocumentFromContext kp maxS s docId
            now).events = [])) ∧
    (∀ now : Nat, notifyDocumentContextChange now =
      ⟨"documentContextUpdated", ⟨now, none, none⟩⟩) := by
  refine ⟨?_, ?_, fun _ => rfl⟩
  · intro kp maxS s docId docName docType content now
    by_cases hc : content.length = 0
    · simp [MCPContextClient.addDocumentToContext, hc]
    · rcases h : ContextService.addDocumentToContext kp maxS s docId docName
          docType content with ⟨s', o⟩
      rcases o <;>
        simp [MCPContextClient.addDocumentToContext, hc, h]
  · intro kp maxS s docId now
    rcases h : ContextService.removeDocumentFromContext kp maxS s docId
      with ⟨s', b⟩
    rcases b <;> simp [MCPContextClient.removeDocumentFromContext, h]

/-- Witness for C4 (amended): one successful add and one successful remove,
each dispatching exactly the timestamp-only event. -/
theorem c4_witness :
    (MCPContextClient.addDocumentToContext "p-" 100 emptyCtxState "d2" "Doc"
        "txt" "hello" 7).events = [notifyDocumentContextChange 7] ∧
    (MCPContextClient.removeDocumentFromContext "p-" 100 dupCtxState "d1"
        7).events = [notifyDocumentContextChange 7] :=
  ⟨(c4_amended.1 "p-" 100 emptyCtxState "d2" "Doc" "txt" "hello" 7).1
      (by decide),
   (c4_amended.2.1 "p-" 100 dupCtxState "d1" 7).1 (by decide)⟩

/-- Claim C7 (counterexample): on a backend whose `removeItem` silently fails
to delete, the chunking variant's `removeContext` still returns `true` while
the key is demonstrably still present afterwards — it returns `true` merely
because the delete calls were issued without error. -/
theorem c7_counterexample :
    (Chunk.removeContext stubbornB "p_" "c"
        [(contextKey "p_" "c", .ctxVal corruptCtx)]).2 = true ∧
    ((Chunk.removeContext stubbornB "p_" "c"
        [(contextKey "p_" "c", .ctxVal corruptCtx)]).1.get
      (contextKey "p_" "c")).isSome = true := by
  decide

/-- Claim C7 (corrected): the truncation variant's `removeContext` returns
`true` exactly when the read-after-delete check confirms the key is absent
(over any backend); the chunking variant's `removeContext` performs no such
check and returns `true` whenever no error is thrown — whether the stored
entry was a parseable context or the key was already absent — regardless of
what its delete calls achieved. -/
theorem c7_amended :
    (∀ (B : Backend) (kp cid : String) (st : Store),
      (Trunc.removeContext B kp cid st).2 = true ↔
        (Trunc.removeContext B kp cid st).1.get (contextKey kp cid) = none) ∧
    (∀ (B : Backend) (kp cid : String) (st : Store) (c : MCPContext),
      st.get (contextKey kp cid) = some (.ctxVal c) →
      (Chunk.removeContext B kp cid st).2 = true) ∧
    (∀ (B : Backend) (kp cid : String) (st : Store),
      st.get (contextKey kp cid) = none →
      (Chunk.removeContext B kp cid st).2 = true) := by
  refine ⟨?_, ?_, ?_⟩
  · intro B kp cid st
    simp [Trunc.removeContext, Option.isNone_iff_eq_none]
  · intro B kp cid st c h
    simp [Chunk.removeContext, h, parseContext]
  · intro B kp cid st h
    simp [Chunk.removeContext, h]

/-- Witness for C7 (amended): concrete instantiations of both chunking-side
clauses (stored parseable context; absent key), each returning `true`. -/
theorem c7_witness :
    (Chunk.removeContext idealBackend "p_" "c"
        [(contextKey "p_" "c", .ctxVal corruptCtx)]).2 = true ∧
    (Chunk.removeContext idealBackend "p_" "c" []).2 = true :=
  ⟨c7_amended.2.1 idealBackend "p_" "c"
      [(contextKey "p_" "c", .ctxVal corruptCtx)] corruptCtx (by decide),
   c7_amended.2.2 idealBackend "p_" "c" [] (by decide)⟩

/-! # Chunking save-loop lemmas -/

theorem processDocs_atts_facts (B : Backend) (kp cid : String) (maxS : Nat) :
    ∀ (docs : List DocumentEntry) (st : Store),
      ∀ a ∈ (Chunk.processDocs B kp cid maxS docs st).atts,
        (∃ s, a.val = .strVal s) ∧
        ∃ d ∈ docs, a.key = Chunk.docKey kp cid d.documentId := by
  intro docs
  induction docs with
  | nil => intro st a ha; cases ha
  | cons d ds ih =>
    intro st a ha
    by_cases hb : Chunk.bigDoc maxS d
    · rcases hset : B.set st (Chunk.docKey kp cid d.documentId)
          (.strVal d.content) with st1 | _ | _
      · rcases hrec : Chunk.processDocs B kp cid maxS ds st1 with
          ⟨st2, atts, docs2⟩ | ⟨st2, atts, q⟩
        · simp only [Chunk.processDocs, if_pos hb, hset, hrec,
            Chunk.LoopResult.atts] at ha
          rcases List.mem_cons.mp ha with rfl | hmem
          · exact ⟨⟨d.content, rfl⟩, d, List.mem_cons_self d ds, rfl⟩
          · have := ih st1 a (by rw [hrec]; exact hmem)
            obtain ⟨hs, d', hd', hk⟩ := this
            exact ⟨hs, d', List.mem_cons_of_mem d hd', hk⟩
        · simp only [Chunk.processDocs, if_pos hb, hset, hrec,
            Chunk.LoopResult.atts] at ha
          rcases List.mem_cons.mp ha with rfl | hmem
          · exact ⟨⟨d.content, rfl⟩, d, List.mem_cons_self d ds, rfl⟩
          · have := ih st1 a (by rw [hrec]; exact hmem)
            obtain ⟨hs, d', hd', hk⟩ := this
            exact ⟨hs, d', List.mem_cons_of_mem d hd', hk⟩
      · simp only [Chunk.processDocs, if_pos hb, hset,
          Chunk.LoopResult.atts] at ha
        rcases List.mem_singleton.mp ha with rfl
        exact ⟨⟨d.content, rfl⟩, d, List.mem_cons_self d ds, rfl⟩
      · simp only [Chunk.processDocs, if_pos hb, hset,
          Chunk.LoopResult.atts] at ha
        rcases List.mem_singleton.mp ha with rfl
        exact ⟨⟨d.content, rfl⟩, d, List.mem_cons_self d ds, rfl⟩
    · rcases hrec : Chunk.processDocs B kp cid maxS ds st with
        ⟨st2, atts, docs2⟩ | ⟨st2, atts, q⟩
      · simp only [Chunk.processDocs, if_neg hb, hrec,
          Chunk.LoopResult.atts] at ha
        have := ih st a (by rw [hrec]; exact ha)
        obtain ⟨hs, d', hd', hk⟩ := this
        exact ⟨hs, d', List.mem_cons_of_mem d hd', hk⟩
      · simp only [Chunk.processDocs, if_neg hb, hrec,
          Chunk.LoopResult.atts] at ha
        have := ih st a (by rw [hrec]; exact ha)
        obtain ⟨hs, d', hd', hk⟩ := this
        exact ⟨hs, d', List.mem_cons_of_mem d hd', hk⟩

theorem processDocs_done_len (B : Backend) (kp cid : String) (maxS : Nat) :
    ∀ (docs : List DocumentEntry) (st st2 : Store) (atts : List Attempt)
      (docs2 : List DocumentEntry),
      Chunk.processDocs B kp cid maxS docs st = .done st2 atts docs2 →
      docs2.length = docs.length := by
  intro docs
  induction docs with
  | nil =>
    intro st st2 atts docs2 h
    simp only [Chunk.processDocs] at h
    injection h with _ _ h3
    subst h3; rfl
  | cons d ds ih =>
    intro st st2 atts docs2 h
    by_cases hb : Chunk.bigDoc maxS d
    · rcases hset : B.set st (Chunk.docKey kp cid d.documentId)
          (.strVal d.content) with st1 | _ | _
      · rcases hrec : Chunk.processDocs B kp cid maxS ds st1 with
          ⟨st3, atts3, docs3⟩ | ⟨st3, atts3, q⟩
        · simp only [Chunk.processDocs, if_pos hb, hset, hrec] at h
          injection h with _ _ h3
          subst h3
          simp [ih st1 st3 atts3 docs3 hrec]
        · simp only [Chunk.processDocs, if_pos hb, hset, hrec] at h
          cases h
      · simp only [Chunk.processDocs, if_pos hb, hset] at h; cases h
      · simp only [Chunk.processDocs, if_pos hb, hset] at h; cases h
    · rcases hrec : Chunk.processDocs B kp cid maxS ds st with
        ⟨st3, atts3, docs3⟩ | ⟨st3, atts3, q⟩
      · simp only [Chunk.processDocs, if_neg hb, hrec] at h
        injection h with _ _ h3
        subst h3
        simp [ih st st3 atts3 docs3 hrec]
      · simp only [Chunk.processDocs, if_neg hb, hrec] at h
        cases h

/-- Claim C2 (counterexample): on a backend that rejects every write with the
quota error, the chunking variant's `saveContext` makes only ONE degradation
retry after the failed main write (two failed attempts in total), and no
attempted payload ever has its document list dropped — contradicting the
claimed two-step ladder whose second step persists the context without its
document list. -/
theorem c2_counterexample :
    (Chunk.saveContext failB "p_" 1048576 "c" ctx1 []).2.attempts.length = 2 ∧
    (∀ a ∈ (Chunk.saveContext failB "p_" 1048576 "c" ctx1 []).2.attempts,
      a.ok = false) ∧
    (∀ a ∈ (Chunk.saveContext failB "p_" 1048576 "c" ctx1 []).2.attempts,
      (parseContext a.val).map (·.documentContext) ≠ some []) := by
  decide

/-- Claim C2 (corrected): the truncation variant implements the claimed
ladder — after a capacity-failed write of the prepared context it retries
once with every document's content replaced by the placeholder (metadata
retained), then, only if that also fails, once more with the document list
dropped; the first success ends the ladder and if every attempt fails the
store is left unchanged with no success reported.  The chunking variant
instead performs a single placeholder retry under a separate `_minimal` key:
none of its attempted context payloads ever drops the document list (its
degraded payload always keeps the full document count). -/
theorem c2_amended :
    (∀ (B : Backend) (kp : String) (maxS : Nat) (cid : String)
        (ctx : MCPContext) (st : Store),
      ctx.documentContext ≠ [] →
      B.set st (contextKey kp cid)
          (.ctxVal (Trunc.prepareContextForStorage maxS ctx)) =
        .quotaExceeded →
      ((Trunc.minimalDegrade ctx).documentContext.map (·.documentId) =
          ctx.documentContext.map (·.documentId) ∧
       (Trunc.minimalDegrade ctx).documentContext.map (·.documentName) =
          ctx.documentContext.map (·.documentName) ∧
       (Trunc.minimalDegrade ctx).documentContext.map (·.documentType) =
          ctx.documentContext.map (·.documentType) ∧
       (Trunc.minimalDegrade ctx).documentContext.map (·.content) =
          ctx.documentContext.map
            (fun d => Trunc.placeholderContent d.documentName)) ∧
      (Trunc.bareDegrade ctx).documentContext = [] ∧
      (match B.set st (contextKey kp cid)
          (.ctxVal (Trunc.minimalDegrade ctx)) with
       | .ok st1 =>
         (Trunc.saveContext B kp maxS cid ctx st).1 = st1 ∧
         (Trunc.saveContext B kp maxS cid ctx st).2.attempts.map
             (fun a => (a.val, a.ok)) =
           [(.ctxVal (Trunc.prepareContextForStorage maxS ctx), false),
            (.ctxVal (Trunc.minimalDegrade ctx), true)]
       | _ =>
         match B.set st (contextKey kp cid)
             (.ctxVal (Trunc.bareDegrade ctx)) with
         | .ok st2 =>
           (Trunc.saveContext B kp maxS cid ctx st).1 = st2 ∧
           (Trunc.saveContext B kp maxS cid ctx st).2.attempts.map
               (fun a => (a.val, a.ok)) =
             [(.ctxVal (Trunc.prepareContextForStorage maxS ctx), false),
              (.ctxVal (Trunc.minimalDegrade ctx), false),
              (.ctxVal (Trunc.bareDegrade ctx), true)]
         | _ =>
           (Trunc.saveContext B kp maxS cid ctx st).1 = st ∧
           (Trunc.saveContext B kp maxS cid ctx st).2.attempts.map
               (fun a => (a.val, a.ok)) =
             [(.ctxVal (Trunc.prepareContextForStorage maxS ctx), false),
              (.ctxVal (Trunc.minimalDegrade ctx), false),
              (.ctxVal (Trunc.bareDegrade ctx), false)])) ∧
    (∀ (B : Backend) (kp : String) (maxS : Nat) (cid : String)
        (ctx : MCPContext) (st : Store),
      ∀ a ∈ (Chunk.saveContext B kp maxS cid ctx st).2.attempts,
        ∀ c, a.val = .ctxVal c →
          c.documentContext.length = ctx.documentContext.length) := by
  constructor
  · intro B kp maxS cid ctx st hne hq
    refine ⟨⟨by simp [Trunc.minimalDegrade, List.map_map, Function.comp],
             by simp [Trunc.minimalDegrade, List.map_map, Function.comp],
             by simp [Trunc.minimalDegrade, List.map_map, Function.comp],
             by simp [Trunc.minimalDegrade, List.map_map, Function.comp]⟩,
           rfl, ?_⟩
    rcases hmin : B.set st (contextKey kp cid)
        (.ctxVal (Trunc.minimalDegrade ctx)) with st1 | _ | _
    · simp [Trunc.saveContext, Trunc.handleStorageError, hne, hq, hmin]
    · rcases hbare : B.set st (contextKey kp cid)
          (.ctxVal (Trunc.bareDegrade ctx)) with st2 | _ | _ <;>
        simp [Trunc.saveContext, Trunc.handleStorageError, hne, hq, hmin,
          hbare]
    · rcases hbare : B.set st (contextKey kp cid)
          (.ctxVal (Trunc.bareDegrade ctx)) with st2 | _ | _ <;>
        simp [Trunc.saveContext, Trunc.handleStorageError, hne, hq, hmin,
          hbare]
  · intro B kp maxS cid ctx st a ha c hval
    have hatts : (Chunk.saveContext B kp maxS cid ctx st).2.attempts =
        (Chunk.saveCore B kp maxS cid ctx st).2 := rfl
    rw [hatts] at ha
    by_cases hd : ctx.documentContext = []
    · rcases hset : B.set st (contextKey kp cid) (.ctxVal ctx) with st1 | _ | _
      · simp only [Chunk.saveCore, if_pos hd, hset] at ha
        rcases List.mem_singleton.mp ha with rfl
        cases hval; rfl
      · simp only [Chunk.saveCore, if_pos hd, hset] at ha
        rcases hfb : B.set st (Chunk.minimalKey kp cid)
            (.ctxVal (Chunk.minimalChunkContext ctx)) with st1 | _ | _ <;>
          simp only [Chunk.quotaFallback, hfb] at ha <;>
          rcases List.mem_cons.mp ha with rfl | ha' <;>
          first
            | (cases hval; rfl)
            | (rcases List.mem_singleton.mp ha' with rfl; cases hval
               simp [Chunk.minimalChunkContext])
      · simp only [Chunk.saveCore, if_pos hd, hset] at ha
        rcases List.mem_singleton.mp ha with rfl
        cases hval; rfl
    · rcases hpd : Chunk.processDocs B kp cid maxS ctx.documentContext st with
        ⟨st1, atts, docs2⟩ | ⟨st1, atts, q⟩
      · have hlen : docs2.length = ctx.documentContext.length :=
          processDocs_done_len B kp cid maxS ctx.documentContext st st1 atts
            docs2 hpd
        have hstr : ∀ a' ∈ atts, ∃ s, a'.val = .strVal s := by
          intro a' ha'
          exact (processDocs_atts_facts B kp cid maxS ctx.documentContext st
            a' (by rw [hpd]; exact ha')).1
        rcases hset : B.set st1 (contextKey kp cid)
            (.ctxVal { ctx with documentContext := docs2 }) with st2 | _ | _
        · simp only [Chunk.saveCore, if_neg hd, hpd, hset] at ha
          rcases List.mem_append.mp ha with ha' | ha'
          · obtain ⟨s, hs⟩ := hstr a ha'
            rw [hs] at hval; cases hval
          · rcases List.mem_singleton.mp ha' with rfl
            cases hval
            simpa using hlen
        · simp only [Chunk.saveCore, if_neg hd, hpd, hset] at ha
          rcases hfb : B.set st1 (Chunk.minimalKey kp cid)
              (.ctxVal (Chunk.minimalChunkContext ctx)) with st2 | _ | _ <;>
            simp only [Chunk.quotaFallback, hfb] at ha <;>
            (rcases List.mem_append.mp ha with ha' | ha'
             · obtain ⟨s, hs⟩ := hstr a ha'
               rw [hs] at hval; cases hval
             · rcases List.mem_cons.mp ha' with rfl | ha''
               · cases hval; simpa using hlen
               · rcases List.mem_singleton.mp ha'' with rfl
                 cases hval
                 simp [Chunk.minimalChunkContext])
        · simp only [Chunk.saveCore, if_neg hd, hpd, hset] at ha
          rcases List.mem_append.mp ha with ha' | ha'
          · obtain ⟨s, hs⟩ := hstr a ha'
            rw [hs] at hval; cases hval
          · rcases List.mem_singleton.mp ha' with rfl
            cases hval
            simpa using hlen
      · have hstr : ∀ a' ∈ atts, ∃ s, a'.val = .strVal s := by
          intro a' ha'
          exact (processDocs_atts_facts B kp cid maxS ctx.documentContext st
            a' (by rw [hpd]; exact ha')).1
        rcases q with _ | _
        · simp only [Chunk.saveCore, if_neg hd, hpd] at ha
          obtain ⟨s, hs⟩ := hstr a ha
          rw [hs] at hval; cases hval
        · simp only [Chunk.saveCore, if_neg hd, hpd] at ha
          rcases hfb : B.set st1 (Chunk.minimalKey kp cid)
              (.ctxVal (Chunk.minimalChunkContext ctx)) with st2 | _ | _ <;>
            simp only [Chunk.quotaFallback, hfb] at ha <;>
            (rcases List.mem_append.mp ha with ha' | ha'
             · obtain ⟨s, hs⟩ := hstr a ha'
               rw [hs] at hval; cases hval
             · rcases List.mem_singleton.mp ha' with rfl
               cases hval
               simp [Chunk.minimalChunkContext])

/-- Witness for C2 (amended): on a backend with room only for document-free
payloads, the full three-attempt ladder runs and ends with the successful
bare write. -/
theorem c2_witness :
    (Trunc.saveContext ladderB "p_" 100 "c" ctx1 []).2.attempts.map
        (fun a => (a.val, a.ok)) =
      [(.ctxVal (Trunc.prepareContextForStorage 100 ctx1), false),
       (.ctxVal (Trunc.minimalDegrade ctx1), false),
       (.ctxVal (Trunc.bareDegrade ctx1), true)] :=
  (c2_amended.1 ladderB "p_" 100 "c" ctx1 [] (by decide) (by decide)).2.2.2

/-- Claim C6 (counterexample): on a backend whose "successful" writes corrupt
the stored value, the chunking variant's `saveContext` completes a
one-document save with a single accepted write, performs no read-back
verification at all (no verification outcome is produced, mirroring the
absence of any verification code in its body), and the undetected stored
document count (0) differs from the written one (1). -/
theorem c6_counterexample :
    (Chunk.saveContext corruptB "p_" 1048576 "c" ctx1 []).2.attempts.map
        (fun a => a.ok) = [true] ∧
    (Chunk.saveContext corruptB "p_" 1048576 "c" ctx1 []).2.verify = none ∧
    (((Chunk.saveContext corruptB "p_" 1048576 "c" ctx1 []).1.get
        (contextKey "p_" "c")).bind parseContext).map
      (fun c => c.documentContext.length) = some 0 ∧
    ctx1.documentContext.length = 1 := by
  decide

/-- Claim C6 (corrected): in the truncation variant, a successful write of a
context with documents is immediately followed by a read-back of the same key
compared against what was written — the produced report flags nothing
exactly when the stored document count matches and every stored document's
content length equals that of the pre-write document found by its id — and
whatever the verification observes (including a thrown read-back), the store
stays exactly the successful write's result, no further attempt is made and
nothing is reported to the caller.  The chunking variant's `saveContext`
never performs any post-write verification. -/
theorem c6_amended :
    (∀ (B : Backend) (kp : String) (maxS : Nat) (cid : String)
        (ctx : MCPContext) (st st1 : Store),
      ctx.documentContext ≠ [] →
      B.set st (contextKey kp cid)
          (.ctxVal (Trunc.prepareContextForStorage maxS ctx)) = .ok st1 →
      (Trunc.saveContext B kp maxS cid ctx st).1 = st1 ∧
      (Trunc.saveContext B kp maxS cid ctx st).2.attempts =
        [⟨contextKey kp cid,
          .ctxVal (Trunc.prepareContextForStorage maxS ctx), true⟩] ∧
      (Trunc.saveContext B kp maxS cid ctx st).2.verify =
        some (Trunc.verifyStoredContext st1 (contextKey kp cid)
          (Trunc.prepareContextForStorage maxS ctx))) ∧
    (∀ (st : Store) (k : String) (orig saved : MCPContext),
      st.get k = some (.ctxVal saved) →
      (Trunc.verifyStoredContext st k orig = .report ⟨false, false⟩ ↔
        (orig.documentContext.length = saved.documentContext.length ∧
         ∀ d ∈ saved.documentContext, ∀ od,
           orig.documentContext.find?
               (fun od => od.documentId == d.documentId) = some od →
           od.content.length = d.content.length))) ∧
    (∀ (B : Backend) (kp : String) (maxS : Nat) (cid : String)
        (ctx : MCPContext) (st : Store),
      (Chunk.saveContext B kp maxS cid ctx st).2.verify = none) := by
  refine ⟨?_, ?_, fun _ _ _ _ _ _ => rfl⟩
  · intro B kp maxS cid ctx st st1 hne hok
    rcases hv : Trunc.verifyStoredContext st1 (contextKey kp cid)
        (Trunc.prepareContextForStorage maxS ctx) with _ | rep <;>
      simp [Trunc.saveContext, Trunc.handleStorageError, hne, hok, hv]
  · intro st k orig saved hget
    by_cases hlen : orig.documentContext.length = saved.documentContext.length
    · simp only [Trunc.verifyStoredContext, hget, parseContext, hlen,
        ne_eq, not_true_eq_false, if_false, VerifyOutcome.report.injEq,
        VerifyReport.mk.injEq, true_and]
      rw [List.any_eq_false]
      constructor
      · intro hall d hd od hfind
        have hpd := hall d hd
        rw [hfind] at hpd
        simpa [bne_eq_false_iff_eq] using hpd
      · intro hall d hd
        rcases hfind : orig.documentContext.find?
            (fun od => od.documentId == d.documentId) with _ | od
        · simp [hfind]
        · have := hall d hd od hfind
          simp [hfind, this]
    · simp [Trunc.verifyStoredContext, hget, parseContext, hlen]

/-- Witness for C6 (amended): a concrete one-document save over the honest
backend — the store is the written entry, one attempt, and the verification
report (read back from the same key) flags nothing; plus the verification
clause instantiated at the written store. -/
theorem c6_witness :
    ((Trunc.saveContext idealBackend "p_" 100 "c" ctx1 []).1 =
        Store.insert [] (contextKey "p_" "c")
          (.ctxVal (Trunc.prepareContextForStorage 100 ctx1)) ∧
     (Trunc.saveContext idealBackend "p_" 100 "c" ctx1 []).2.attempts =
        [⟨contextKey "p_" "c",
          .ctxVal (Trunc.prepareContextForStorage 100 ctx1), true⟩] ∧
     (Trunc.saveContext idealBackend "p_" 100 "c" ctx1 []).2.verify =
        some (Trunc.verifyStoredContext
          (Store.insert [] (contextKey "p_" "c")
            (.ctxVal (Trunc.prepareContextForStorage 100 ctx1)))
          (contextKey "p_" "c")
          (Trunc.prepareContextForStorage 100 ctx1))) ∧
    (Trunc.verifyStoredContext
        [(contextKey "p_" "c", .ctxVal ctx1)] (contextKey "p_" "c") ctx1 =
          .report ⟨false, false⟩ ↔
      (ctx1.documentContext.length = ctx1.documentContext.length ∧
       ∀ d ∈ ctx1.documentContext, ∀ od,
         ctx1.documentContext.find?
             (fun od => od.documentId == d.documentId) = some od →
         od.content.length = d.content.length)) :=
  ⟨c6_amended.1 idealBackend "p_" 100 "c" ctx1 [] _ (by decide) rfl,
   c6_amended.2.1 [(contextKey "p_" "c", .ctxVal ctx1)] (contextKey "p_" "c")
     ctx1 ctx1 (by decide)⟩

theorem writeBigDocs_cons (kp cid : String) (maxS : Nat)
    (d : DocumentEntry) (ds : List DocumentEntry) (st : Store) :
    writeBigDocs kp cid maxS (d :: ds) st =
      writeBigDocs kp cid maxS ds
        (if Chunk.bigDoc maxS d then
          st.insert (Chunk.docKey kp cid d.documentId) (.strVal d.content)
        else st) := by
  simp only [writeBigDocs, List.foldl_cons]

theorem get_writeBigDocs_ne (kp cid : String) (maxS : Nat) :
    ∀ (docs : List DocumentEntry) (st : Store) (k : String),
      (∀ d ∈ docs, k ≠ Chunk.docKey kp cid d.documentId) →
      (writeBigDocs kp cid maxS docs st).get k = st.get k := by
  intro docs
  induction docs with
  | nil => intro st k _; rfl
  | cons d ds ih =>
    intro st k h
    rw [writeBigDocs_cons,
      ih _ k (fun d' hd' => h d' (List.mem_cons_of_mem d hd'))]
    split
    · rw [Store.get_insert,
        if_neg (fun heq => h d (List.mem_cons_self d ds) heq.symm)]
    · rfl

theorem get_writeBigDocs_big (kp cid : String) (maxS : Nat) :
    ∀ (docs : List DocumentEntry) (st : Store) (d : DocumentEntry),
      d ∈ docs → (docs.map (·.documentId)).Nodup → Chunk.bigDoc maxS d →
      (writeBigDocs kp cid maxS docs st).get
        (Chunk.docKey kp cid d.documentId) = some (.strVal d.content) := by
  intro docs
  induction docs with
  | nil => intro st d h; cases h
  | cons d0 ds ih =>
    intro st d hmem hnd hbig
    rw [List.map_cons] at hnd
    have hnotin : d0.documentId ∉ ds.map (·.documentId) :=
      (List.nodup_cons.mp hnd).1
    have hnd' : (ds.map (·.documentId)).Nodup := (List.nodup_cons.mp hnd).2
    rcases List.mem_cons.mp hmem with rfl | hmem'
    · rw [writeBigDocs_cons, if_pos hbig,
        get_writeBigDocs_ne kp cid maxS ds _ _ ?_]
      · rw [Store.get_insert, if_pos rfl]
      · intro d' hd' heq
        have hid : d.documentId = d'.documentId := docKey_inj kp cid heq
        exact hnotin (hid ▸ List.mem_map_of_mem (·.documentId) hd')
    · rw [writeBigDocs_cons]
      split <;> exact ih _ d hmem' hnd' hbig

theorem processDocs_ideal (kp cid : String) (maxS : Nat) :
    ∀ (docs : List DocumentEntry) (st : Store),
      ∃ atts, Chunk.processDocs idealBackend kp cid maxS docs st =
        .done (writeBigDocs kp cid maxS docs st) atts
          (docs.map (Chunk.chunkPrepare kp cid maxS)) := by
  intro docs
  induction docs with
  | nil => intro st; exact ⟨[], rfl⟩
  | cons d ds ih =>
    intro st
    by_cases hb : Chunk.bigDoc maxS d
    · obtain ⟨atts, h⟩ :=
        ih (st.insert (Chunk.docKey kp cid d.documentId) (.strVal d.content))
      refine ⟨⟨Chunk.docKey kp cid d.documentId, .strVal d.content, true⟩ ::
        atts, ?_⟩
      simp only [idealBackend] at h
      simp only [Chunk.processDocs, if_pos hb, idealBackend, h,
        writeBigDocs_cons, List.map_cons, Chunk.chunkPrepare]
    · obtain ⟨atts, h⟩ := ih st
      refine ⟨atts, ?_⟩
      simp only [Chunk.processDocs, if_neg hb, h, writeBigDocs_cons,
        List.map_cons, Chunk.chunkPrepare, if_neg hb]

theorem processDocs_store_main (B : Backend) (kp cid : String) (maxS : Nat)
    (hB : SetExact B) :
    ∀ (docs : List DocumentEntry) (st : Store),
      (Chunk.processDocs B kp cid maxS docs st).store.get
          (contextKey kp cid) = st.get (contextKey kp cid) := by
  intro docs
  induction docs with
  | nil => intro st; rfl
  | cons d ds ih =>
    intro st
    by_cases hb : Chunk.bigDoc maxS d
    · rcases hset : B.set st (Chunk.docKey kp cid d.documentId)
          (.strVal d.content) with st1 | _ | _
      · have hmain : st1.get (contextKey kp cid) =
            st.get (contextKey kp cid) := by
          rw [hB _ _ _ _ hset, Store.get_insert,
            if_neg (docKey_ne_contextKey kp cid d.documentId)]
        rcases hrec : Chunk.processDocs B kp cid maxS ds st1 with
          ⟨st2, atts, docs2⟩ | ⟨st2, atts, q⟩
        · have hih := ih st1
          rw [hrec] at hih
          simp only [Chunk.LoopResult.store] at hih
          simp only [Chunk.processDocs, if_pos hb, hset, hrec,
            Chunk.LoopResult.store]
          rw [hih, hmain]
        · have hih := ih st1
          rw [hrec] at hih
          simp only [Chunk.LoopResult.store] at hih
          simp only [Chunk.processDocs, if_pos hb, hset, hrec,
            Chunk.LoopResult.store]
          rw [hih, hmain]
      · simp only [Chunk.processDocs, if_pos hb, hset,
          Chunk.LoopResult.store]
      · simp only [Chunk.processDocs, if_pos hb, hset,
          Chunk.LoopResult.store]
    · rcases hrec : Chunk.processDocs B kp cid maxS ds st with
        ⟨st2, atts, docs2⟩ | ⟨st2, atts, q⟩
      · have hih := ih st
        rw [hrec] at hih
        simp only [Chunk.LoopResult.store] at hih
        simp only [Chunk.processDocs, if_neg hb, hrec,
          Chunk.LoopResult.store]
        exact hih
      · have hih := ih st
        rw [hrec] at hih
        simp only [Chunk.LoopResult.store] at hih
        simp only [Chunk.processDocs, if_neg hb, hrec,
          Chunk.LoopResult.store]
        exact hih

theorem prepareContext_eq_self (maxS : Nat) (ctx : MCPContext)
    (h : ∀ d ∈ ctx.documentContext,
      d.content.length ≠ 0 ∧ d.content.length ≤ maxS) :
    Trunc.prepareContextForStorage maxS ctx = ctx := by
  have hmap : ctx.documentContext.map (Trunc.prepareDoc maxS) =
      ctx.documentContext := by
    conv_rhs => rw [← List.map_id ctx.documentContext]
    refine List.map_congr_left ?_
    intro d hd
    obtain ⟨h1, h2⟩ := h d hd
    simp [Trunc.prepareDoc, h1, Nat.not_lt.mpr h2]
  simp [Trunc.prepareContextForStorage, hmap]

theorem trunc_save_ideal_store (kp : String) (maxS : Nat) (cid : String)
    (ctx : MCPContext) (st : Store) :
    (Trunc.saveContext idealBackend kp maxS cid ctx st).1 =
      st.insert (contextKey kp cid)
        (.ctxVal (if ctx.documentContext = [] then ctx
                  else Trunc.prepareContextForStorage maxS ctx)) := by
  by_cases hd : ctx.documentContext = []
  · simp [Trunc.saveContext, hd, idealBackend]
  · rcases hv : Trunc.verifyStoredContext
        (st.insert (contextKey kp cid)
          (.ctxVal (Trunc.prepareContextForStorage maxS ctx)))
        (contextKey kp cid) (Trunc.prepareContextForStorage maxS ctx) with
      _ | rep <;>
    simp [Trunc.saveContext, hd, idealBackend, hv, Trunc.handleStorageError]

/-- Claim C1 (counterexample): a well-formed context whose single document
has non-empty content far below the ceiling — but spoofing the chunking
variant's in-band reference marker — does NOT round-trip: the chunking
`loadContext` mistakes the content for a reference token and replaces it
with a lost-reference placeholder. -/
theorem c1_counterexample :
    (∀ d ∈ spoofCtx.documentContext,
      d.content.length ≠ 0 ∧ d.content.length ≤ 1048576) ∧
    (Chunk.loadContext "mcp_context_" "c"
        (Chunk.saveContext idealBackend "mcp_context_" 1048576 "c" spoofCtx
          []).1).map (fun c => c.documentContext.map (·.content)) =
      some ["Content reference lost: x"] ∧
    (Chunk.loadContext "mcp_context_" "c"
        (Chunk.saveContext idealBackend "mcp_context_" 1048576 "c" spoofCtx
          []).1).map (fun c => c.documentContext.map (·.content)) ≠
      some ["__DOC_REF__x"] := by
  decide

/-- Claim C1 (corrected): `saveContext` followed by `loadContext` on the same
service yields exactly the saved context (hence equal document count and
byte-identical contents) when every document has non-empty content at most
the ceiling — unconditionally so for the truncation variant, and for the
chunking variant additionally provided document ids are unique (the
documented invariant) and no document's content begins with the reserved
`__DOC_REF__` marker. -/
theorem c1_amended :
    (∀ (kp : String) (maxS : Nat) (cid : String) (st : Store)
        (ctx : MCPContext),
      (∀ d ∈ ctx.documentContext,
        d.content.length ≠ 0 ∧ d.content.length ≤ maxS) →
      Trunc.loadContext kp cid
        (Trunc.saveContext idealBackend kp maxS cid ctx st).1 = some ctx) ∧
    (∀ (kp : String) (maxS : Nat) (cid : String) (st : Store)
        (ctx : MCPContext),
      (∀ d ∈ ctx.documentContext,
        d.content.length ≠ 0 ∧ d.content.length ≤ maxS) →
      (∀ d ∈ ctx.documentContext,
        strStartsWith d.content Chunk.refMarker = false) →
      (ctx.documentContext.map (·.documentId)).Nodup →
      Chunk.loadContext kp cid
        (Chunk.saveContext idealBackend kp maxS cid ctx st).1 = some ctx) := by
  constructor
  · intro kp maxS cid st ctx h
    rw [trunc_save_ideal_store]
    by_cases hd : ctx.documentContext = [] <;>
      simp [Trunc.loadContext, Store.get_insert, parseContext, hd,
        prepareContext_eq_self maxS ctx h]
  · intro kp maxS cid st ctx h hns hnd
    by_cases hd : ctx.documentContext = []
    · have hstore : (Chunk.saveContext idealBackend kp maxS cid ctx st).1 =
          st.insert (contextKey kp cid) (.ctxVal ctx) := by
        simp [Chunk.saveContext, Chunk.saveCore, hd, idealBackend]
      rw [hstore]
      simp [Chunk.loadContext, Store.get_insert, parseContext, hd]
      rcases ctx with ⟨cidf, docs, mh, mp, ma⟩
      simp only at hd
      subst hd
      rfl
    · obtain ⟨atts, hpd⟩ :=
        processDocs_ideal kp cid maxS ctx.documentContext st
      have hstore : (Chunk.saveContext idealBackend kp maxS cid ctx st).1 =
          (writeBigDocs kp cid maxS ctx.documentContext st).insert
            (contextKey kp cid) (.ctxVal (chunkCopy kp cid maxS ctx)) := by
        simp only [idealBackend] at hpd
        simp [Chunk.saveContext, Chunk.saveCore, hd, hpd, idealBackend,
          chunkCopy]
      rw [hstore]
      have hmap : (ctx.documentContext.map
            (Chunk.chunkPrepare kp cid maxS)).map
          (Chunk.resolveDoc
            ((writeBigDocs kp cid maxS ctx.documentContext st).insert
              (contextKey kp cid) (.ctxVal (chunkCopy kp cid maxS ctx)))) =
          ctx.documentContext := by
        rw [List.map_map]
        conv_rhs => rw [← List.map_id ctx.documentContext]
        refine List.map_congr_left ?_
        intro d hd'
        simp only [Function.comp_apply, id_eq]
        by_cases hb : Chunk.bigDoc maxS d
        · have hget : ((writeBigDocs kp cid maxS ctx.documentContext
                st).insert (contextKey kp cid)
                (.ctxVal (chunkCopy kp cid maxS ctx))).get
              (Chunk.docKey kp cid d.documentId) =
              some (.strVal d.content) := by
            rw [Store.get_insert,
              if_neg (fun heq =>
                docKey_ne_contextKey kp cid d.documentId heq.symm)]
            exact get_writeBigDocs_big kp cid maxS ctx.documentContext st d
              hd' hnd hb
          simp only [Chunk.chunkPrepare, if_pos hb]
          simp [Chunk.resolveDoc, strStartsWith_append, stripRef_append,
            hget]
        · simp only [Chunk.chunkPrepare, if_neg hb]
          simp [Chunk.resolveDoc, hns d hd']
      have hget2 : ((writeBigDocs kp cid maxS ctx.documentContext st).insert
            (contextKey kp cid) (.ctxVal (chunkCopy kp cid maxS ctx))).get
          (contextKey kp cid) = some (.ctxVal (chunkCopy kp cid maxS ctx)) := by
        rw [Store.get_insert, if_pos rfl]
      simp only [Chunk.loadContext, hget2, parseContext]
      rw [show (chunkCopy kp cid maxS ctx).documentContext =
        ctx.documentContext.map (Chunk.chunkPrepare kp cid maxS) from rfl]
      rw [hmap]
      rfl

/-- Witness for C1 (amended): concrete round trips through both variants
(the chunking one externalizing its big document under a secondary key). -/
theorem c1_witness :
    Trunc.loadContext "p-" "c"
      (Trunc.saveContext idealBackend "p-" 5 "c" wCtx []).1 = some wCtx ∧
    Chunk.loadContext "p-" "c"
      (Chunk.saveContext idealBackend "p-" 5 "c" wCtx2 []).1 = some wCtx2 :=
  ⟨c1_amended.1 "p-" 5 "c" [] wCtx (by decide),
   c1_amended.2 "p-" 5 "c" [] wCtx2 (by decide) (by decide) (by decide)⟩

/-- Claim C9 (confirmed): over any backend whose successful writes store
exactly the given key, whenever the chunking `saveContext` ends up writing
its degraded payload (the only write it ever directs at the `_minimal` key)
and the conversation had no prior successful full save, the degraded payload
is persisted under `prefix ++ cid ++ "_minimal"` while `loadContext` — which
reads only `prefix ++ cid` — returns `null`. -/
theorem c9_theorem (B : Backend) (kp : String) (maxS : Nat) (cid : String)
    (ctx : MCPContext) (st : Store) (hB : SetExact B)
    (hnone : st.get (contextKey kp cid) = none)
    (hex : ∃ a ∈ (Chunk.saveContext B kp maxS cid ctx st).2.attempts,
      a.key = Chunk.minimalKey kp cid ∧ a.ok = true) :
    Chunk.loadContext kp cid (Chunk.saveContext B kp maxS cid ctx st).1 =
      none ∧
    (Chunk.saveContext B kp maxS cid ctx st).1.get
      (Chunk.minimalKey kp cid) ≠ none := by
  have hload : ∀ s : Store, s.get (contextKey kp cid) = none →
      Chunk.loadContext kp cid s = none := by
    intro s hs; simp [Chunk.loadContext, hs]
  have hatts : (Chunk.saveContext B kp maxS cid ctx st).2.attempts =
      (Chunk.saveCore B kp maxS cid ctx st).2 := rfl
  have hst : (Chunk.saveContext B kp maxS cid ctx st).1 =
      (Chunk.saveCore B kp maxS cid ctx st).1 := rfl
  rw [hatts] at hex
  rw [hst]
  by_cases hd : ctx.documentContext = []
  · rcases hset : B.set st (contextKey kp cid) (.ctxVal ctx) with st1 | _ | _
    · simp only [Chunk.saveCore, if_pos hd, hset] at hex
      obtain ⟨a, ha, hk, -⟩ := hex
      rcases List.mem_singleton.mp ha with rfl
      exact absurd hk.symm (minimalKey_ne_contextKey kp cid)
    · rcases hfb : B.set st (Chunk.minimalKey kp cid)
          (.ctxVal (Chunk.minimalChunkContext ctx)) with st1 | _ | _
      · have hst1 : st1 = st.insert (Chunk.minimalKey kp cid)
            (.ctxVal (Chunk.minimalChunkContext ctx)) := hB _ _ _ _ hfb
        simp only [Chunk.saveCore, if_pos hd, hset, Chunk.quotaFallback, hfb]
        constructor
        · apply hload
          rw [hst1, Store.get_insert,
            if_neg (minimalKey_ne_contextKey kp cid)]
          exact hnone
        · rw [hst1, Store.get_insert, if_pos rfl]
          simp
      · simp only [Chunk.saveCore, if_pos hd, hset, Chunk.quotaFallback,
          hfb] at hex
        obtain ⟨a, ha, -, hok⟩ := hex
        rcases List.mem_cons.mp ha with rfl | ha'
        · cases hok
        · rcases List.mem_singleton.mp ha' with rfl
          cases hok
      · simp only [Chunk.saveCore, if_pos hd, hset, Chunk.quotaFallback,
          hfb] at hex
        obtain ⟨a, ha, -, hok⟩ := hex
        rcases List.mem_cons.mp ha with rfl | ha'
        · cases hok
        · rcases List.mem_singleton.mp ha' with rfl
          cases hok
    · simp only [Chunk.saveCore, if_pos hd, hset] at hex
      obtain ⟨a, ha, hk, -⟩ := hex
      rcases List.mem_singleton.mp ha with rfl
      exact absurd hk.symm (minimalKey_ne_contextKey kp cid)
  · rcases hpd : Chunk.processDocs B kp cid maxS ctx.documentContext st with
      ⟨st1, atts, docs2⟩ | ⟨st1, atts, q⟩
    · have hkeys : ∀ a ∈ atts, a.key ≠ Chunk.minimalKey kp cid := by
        intro a ha
        obtain ⟨-, d, -, hk⟩ := processDocs_atts_facts B kp cid maxS
          ctx.documentContext st a (by rw [hpd]; exact ha)
        rw [hk]
        exact docKey_ne_minimalKey kp cid d.documentId
      have hmain : st1.get (contextKey kp cid) = none := by
        have := processDocs_store_main B kp cid maxS hB ctx.documentContext st
        rw [hpd] at this
        simp only [Chunk.LoopResult.store] at this
        rw [this]; exact hnone
      rcases hset : B.set st1 (contextKey kp cid)
          (.ctxVal { ctx with documentContext := docs2 }) with st2 | _ | _
      · simp only [Chunk.saveCore, if_neg hd, hpd, hset] at hex
        obtain ⟨a, ha, hk, -⟩ := hex
        rcases List.mem_append.mp ha with ha' | ha'
        · exact absurd hk (hkeys a ha')
        · rcases List.mem_singleton.mp ha' with rfl
          exact absurd hk.symm (minimalKey_ne_contextKey kp cid)
      · rcases hfb : B.set st1 (Chunk.minimalKey kp cid)
            (.ctxVal (Chunk.minimalChunkContext ctx)) with st2 | _ | _
        · have hst2 : st2 = st1.insert (Chunk.minimalKey kp cid)
              (.ctxVal (Chunk.minimalChunkContext ctx)) := hB _ _ _ _ hfb
          simp only [Chunk.saveCore, if_neg hd, hpd, hset,
            Chunk.quotaFallback, hfb]
          constructor
          · apply hload
            rw [hst2, Store.get_insert,
              if_neg (minimalKey_ne_contextKey kp cid)]
            exact hmain
          · rw [hst2, Store.get_insert, if_pos rfl]
            simp
        · simp only [Chunk.saveCore, if_neg hd, hpd, hset,
            Chunk.quotaFallback, hfb] at hex
          obtain ⟨a, ha, hk, hok⟩ := hex
          rcases List.mem_append.mp ha with ha' | ha'
          · exact absurd hk (hkeys a ha')
          · rcases List.mem_cons.mp ha' with rfl | ha''
            · cases hok
            · rcases List.mem_singleton.mp ha'' with rfl
              cases hok
        · simp only [Chunk.saveCore, if_neg hd, hpd, hset,
            Chunk.quotaFallback, hfb] at hex
          obtain ⟨a, ha, hk, hok⟩ := hex
          rcases List.mem_append.mp ha with ha' | ha'
          · exact absurd hk (hkeys a ha')
          · rcases List.mem_cons.mp ha' with rfl | ha''
            · cases hok
            · rcases List.mem_singleton.mp ha'' with rfl
              cases hok
      · simp only [Chunk.saveCore, if_neg hd, hpd, hset] at hex
        obtain ⟨a, ha, hk, hok⟩ := hex
        rcases List.mem_append.mp ha with ha' | ha'
        · exact absurd hk (hkeys a ha')
        · rcases List.mem_singleton.mp ha' with rfl
          cases hok
    · have hkeys : ∀ a ∈ atts, a.key ≠ Chunk.minimalKey kp cid := by
        intro a ha
        obtain ⟨-, d, -, hk⟩ := processDocs_atts_facts B kp cid maxS
          ctx.documentContext st a (by rw [hpd]; exact ha)
        rw [hk]
        exact docKey_ne_minimalKey kp cid d.documentId
      have hmain : st1.get (contextKey kp cid) = none := by
        have := processDocs_store_main B kp cid maxS hB ctx.documentContext st
        rw [hpd] at this
        simp only [Chunk.LoopResult.store] at this
        rw [this]; exact hnone
      rcases q with _ | _
      · simp only [Chunk.saveCore, if_neg hd, hpd] at hex
        obtain ⟨a, ha, hk, -⟩ := hex
        exact absurd hk (hkeys a ha)
      · rcases hfb : B.set st1 (Chunk.minimalKey kp cid)
            (.ctxVal (Chunk.minimalChunkContext ctx)) with st2 | _ | _
        · have hst2 : st2 = st1.insert (Chunk.minimalKey kp cid)
              (.ctxVal (Chunk.minimalChunkContext ctx)) := hB _ _ _ _ hfb
          simp only [Chunk.saveCore, if_neg hd, hpd, Chunk.quotaFallback,
            hfb]
          constructor
          · apply hload
            rw [hst2, Store.get_insert,
              if_neg (minimalKey_ne_contextKey kp cid)]
            exact hmain
          · rw [hst2, Store.get_insert, if_pos rfl]
            simp
        · simp only [Chunk.saveCore, if_neg hd, hpd, Chunk.quotaFallback,
            hfb] at hex
          obtain ⟨a, ha, hk, hok⟩ := hex
          rcases List.mem_append.mp ha with ha' | ha'
          · exact absurd hk (hkeys a ha')
          · rcases List.mem_singleton.mp ha' with rfl
            cases hok
        · simp only [Chunk.saveCore, if_neg hd, hpd, Chunk.quotaFallback,
            hfb] at hex
          obtain ⟨a, ha, hk, hok⟩ := hex
          rcases List.mem_append.mp ha with ha' | ha'
          · exact absurd hk (hkeys a ha')
          · rcases List.mem_singleton.mp ha' with rfl
            cases hok

/-- Witness for C9: a backend with room only for the `_minimal` payload; the
quota fallback persists the degraded context yet `loadContext` yields
`null`. -/
theorem c9_witness :
    Chunk.loadContext "p_" "c"
      (Chunk.saveContext capB "p_" 100 "c" ctx1 []).1 = none ∧
    (Chunk.saveContext capB "p_" 100 "c" ctx1 []).1.get
      (Chunk.minimalKey "p_" "c") ≠ none :=
  c9_theorem capB "p_" 100 "c" ctx1 []
    (by
      intro st k v st' h
      simp only [capB] at h
      split at h
      · injection h with h'
        exact h'.symm
      · cases h)
    rfl
    (by decide)
